import Mathlib

/-!
Shallow embedding of the `web_permonitor` repository (alert deduplication
store, notification executor, local report notifier) and proofs of the
specification claims about it.

Conventions of the embedding:
* Python `datetime` values are modelled as `Int` (microsecond ticks); the
  deduplication window `timedelta` is likewise an `Int` in the same unit.
* The insertion-ordered Python `dict` backing `AlertManager._alerts` is
  modelled as an association list `List (String × AlertRecord)`:
  assignment to an existing key replaces the value in place, assignment
  to a fresh key appends, `del` removes the pair.
* Disk I/O is modelled by an explicit `FileContent` value; exceptions are
  modelled by `Option`/sum-like constructors.
-/

namespace WebPerfMonitor

/-- Mirror of `models.AlertRecord` (`models.py`): endpoint key,
`last_alert_time` (an `Int` tick), and `alert_count`. -/
structure AlertRecord where
  endpoint : String
  lastAlertTime : Int
  alertCount : Nat
  deriving DecidableEq, Repr

/-- The in-memory store `AlertManager._alerts`: an insertion-ordered
dict from endpoint to `AlertRecord`, as an association list. -/
abbrev Alerts := List (String × AlertRecord)

/-- Keys of the store, in insertion order. -/
def keysOf (al : Alerts) : List String := al.map Prod.fst

/-- The dict invariant: each endpoint occurs at most once. -/
def NodupKeys (al : Alerts) : Prop := (keysOf al).Nodup

/-- Mirror of `self._alerts.get(endpoint)`. -/
def lookupAlert (al : Alerts) (e : String) : Option AlertRecord :=
  (al.find? (fun p => p.1 == e)).map Prod.snd

/-- Mirror of `self._alerts[endpoint] = record`: replace in place when the
key exists, append otherwise (Python dict assignment semantics). -/
def setAlert : Alerts → String → AlertRecord → Alerts
  | [], e, r => [(e, r)]
  | (k, v) :: rest, e, r =>
      if k == e then (k, r) :: rest else (k, v) :: setAlert rest e r

/-- Comparison used by `_evict_if_needed`'s
`sorted(self._alerts.items(), key=lambda x: x[1].last_alert_time)`. -/
def byTime (a b : String × AlertRecord) : Prop :=
  a.2.lastAlertTime ≤ b.2.lastAlertTime

instance : DecidableRel byTime := fun _ _ => Int.decLe _ _

instance : IsTotal (String × AlertRecord) byTime :=
  ⟨fun a b => Int.le_total a.2.lastAlertTime b.2.lastAlertTime⟩

instance : IsTrans (String × AlertRecord) byTime :=
  ⟨fun _ _ _ h h' => le_trans h h'⟩

/-- Mirror of `AlertManager._evict_if_needed` (`alert.py:260-288`): when the
store holds at least `maxR` records, sort the items by `last_alert_time`
ascending, and delete the first `max 1 (maxR / 10)` endpoints. -/
def evictIfNeeded (maxR : Nat) (al : Alerts) : Alerts :=
  if al.length < maxR then al
  else
    let evictCount := Nat.max 1 (maxR / 10)
    let victims := ((List.insertionSort byTime al).take evictCount).map Prod.fst
    al.filter (fun p => !(victims.contains p.1))

/-- Mirror of `AlertManager.should_alert` (`alert.py:81-103`): true when no
record exists or the record is strictly older than the window. -/
def shouldAlert (w : Int) (al : Alerts) (now : Int) (e : String) : Bool :=
  match lookupAlert al e with
  | none => true
  | some r => decide (now - r.lastAlertTime > w)

/-- Mirror of `AlertManager.record_alert` (`alert.py:105-133`): refresh the
record (count + 1) when present; otherwise evict if needed and insert a
fresh record with count 1 and `last_alert_time = now`. -/
def recordAlert (maxR : Nat) (now : Int) (al : Alerts) (e : String) : Alerts :=
  match lookupAlert al e with
  | none => setAlert (evictIfNeeded maxR al) e ⟨e, now, 1⟩
  | some r => setAlert al e ⟨e, now, r.alertCount + 1⟩

/-- Modelled from the spec: `shouldAlertAndRecord(endpoint) -> bool`, the
single atomic check-and-record contract of the alert store. The method
`should_alert_and_record` is called by `BaseMiddleware.process_profile`
and `BaseDecorator` but its definition is not among the provided source
files; following the spec it returns `true` (and durably records) iff no
record exists for the endpoint or the existing record's `lastAlertTime`
is older than `now - alertWindow`, performing the check and the record
under one lock as a single state transition. -/
def shouldAlertAndRecord (w : Int) (maxR : Nat) (al : Alerts) (now : Int)
    (e : String) : Bool × Alerts :=
  if shouldAlert w al now e then (true, recordAlert maxR now al e)
  else (false, al)

/-- Mirror of `BaseMiddleware.process_profile` (`base_middleware.py:97-117`)
restricted to its alert/submission effect: call the atomic
`should_alert_and_record`; on `true` submit the profile to the executor,
on `false` submit nothing. Returns the updated store and the list of
profiles handed to `NotificationExecutor.submit`. Profiles are identified
here by their endpoint and id strings. -/
structure Profile where
  id : String
  endpoint : String
  deriving DecidableEq, Repr

def processProfile (w : Int) (maxR : Nat) (al : Alerts) (now : Int)
    (p : Profile) : Alerts × List Profile :=
  let res := shouldAlertAndRecord w maxR al now p.endpoint
  if res.1 then (res.2, [p]) else (res.2, [])

/-- A persisted `last_alert` field: either an ISO-8601 string that
`datetime.fromisoformat` parses back to the tick it encodes, or an
unparsable string (which raises `ValueError` in the source). -/
inductive TimeField where
  | parsable (t : Int)
  | unparsable
  deriving DecidableEq, Repr

/-- One value of the persisted JSON object (`record_data` in
`_load_alerts`): optional `last_alert` and `alert_count` fields. -/
structure SavedEntry where
  lastAlert : Option TimeField
  alertCount : Option Nat
  deriving DecidableEq, Repr

/-- The alerts persistence file: missing, malformed JSON (raising
`json.JSONDecodeError` on parse), or a parsed JSON object. -/
inductive FileContent where
  | missing
  | invalidJson
  | valid (entries : List (String × SavedEntry))
  deriving DecidableEq, Repr

/-- Mirror of the per-entry body of `_load_alerts` (`alert.py:210-217`):
build an `AlertRecord` from one JSON entry; `none` models the caught
`KeyError` (missing `last_alert`) or `ValueError` (unparsable timestamp);
a missing `alert_count` defaults to 1 (`record_data.get("alert_count", 1)`). -/
def parseEntry (e : String) (d : SavedEntry) : Option AlertRecord :=
  match d.lastAlert with
  | none => none
  | some .unparsable => none
  | some (.parsable t) => some ⟨e, t, d.alertCount.getD 1⟩

/-- Mirror of `AlertManager._save_alerts` (`alert.py:230-258`): serialize
each record's `last_alert_time` (ISO-8601 round-trips exactly, so the
persisted precision equals the model's) and `alert_count`, and atomically
replace the file with the resulting JSON object. -/
def saveAlerts (al : Alerts) : FileContent :=
  .valid (al.map fun p =>
    (p.1, SavedEntry.mk (some (.parsable p.2.lastAlertTime)) (some p.2.alertCount)))

/-- An alert store together with its backing file. -/
structure StoreState where
  alerts : Alerts
  file : FileContent
  deriving DecidableEq, Repr

/-- Mirror of `AlertManager.__init__` + `_load_alerts`
(`alert.py:197-228`): starting from the empty dict, a missing file leaves
the store empty (no write); malformed JSON clears the store and
immediately rewrites the file (`self._alerts.clear(); self._save_alerts()`);
valid JSON folds the entries in order, skipping the invalid ones. -/
def loadStore : FileContent → StoreState
  | .missing => ⟨[], .missing⟩
  | .invalidJson => ⟨[], saveAlerts []⟩
  | .valid entries =>
      ⟨entries.foldl (fun al p =>
          match parseEntry p.1 p.2 with
          | some r => setAlert al p.1 r
          | none => al) [],
       .valid entries⟩

/-- Mirror of `models.TaskStatus` (`models.py:157-172`). -/
inductive TaskStatus where
  | pending
  | running
  | completed
  | failed
  | timeout
  deriving DecidableEq, Repr

/-- One notification channel configuration dict from `notice_list`:
the fields read by the executor, `config.get("type", "")` and
`config.get("format", "markdown")`, kept optional as in the dict. -/
structure ChannelCfg where
  typeField : Option String
  formatField : Option String
  deriving DecidableEq, Repr

/-- Mirror of `models.NotificationTask` restricted to the fields the
executor writes at submission (`executor.py:116-122`). -/
structure NotificationTask where
  id : String
  profile : Profile
  notifierConfigs : List ChannelCfg
  createdAt : Int
  status : TaskStatus
  deriving DecidableEq, Repr

/-- The executor state relevant to `submit`: the shutdown flag, the
bounded pending queue (front = oldest), its capacity
(`config.notice_queue_size`; a Python `queue.Queue` with `maxsize <= 0`
is unbounded), and the current `config.notice_list`. -/
structure ExecutorState where
  isShut : Bool
  queue : List NotificationTask
  capacity : Nat
  noticeList : List ChannelCfg
  deriving Repr

/-- Mirror of `NotificationExecutor.submit` (`executor.py:100-145`):
return `none` when shutdown has begun; otherwise create a `PENDING` task
carrying (a reference to) `config.notice_list`, and `put_nowait` it —
on `queue.Full` (capacity positive and reached) drop the oldest queued
task with `get_nowait` and retry the put (the inner `queue.Empty` arm
leaves the queue unchanged, unreachable sequentially). Returns the
created task and the new queue. -/
def submit (s : ExecutorState) (p : Profile) (newId : String) (now : Int) :
    Option NotificationTask × List NotificationTask :=
  if s.isShut then (none, s.queue)
  else
    let task : NotificationTask := ⟨newId, p, s.noticeList, now, .pending⟩
    let q :=
      if 0 < s.capacity ∧ s.capacity ≤ s.queue.length then
        match s.queue with
        | [] => s.queue
        | _ :: rest => rest ++ [task]
      else s.queue ++ [task]
    (some task, q)

/-- Outcome of one notifier `send` call (or of the local save):
`ok`, or a raised exception carrying its message. -/
inductive SendRes where
  | ok
  | err (msg : String)
  deriving DecidableEq, Repr

/-- The observable outcome of `_execute_task`: final status, accumulated
error list, the joined `task.error` string, and the ordered trace of
performed steps (the mandatory local save, then each external send,
labelled by notifier type). -/
structure ExecResult where
  status : TaskStatus
  errors : List String
  errorStr : Option String
  steps : List String
  deriving DecidableEq, Repr

/-- Final status/error assembly of `_execute_task`
(`executor.py:200-206`). -/
def mkResult (errors steps : List String) : ExecResult :=
  { status := if errors.isEmpty then .completed else .failed
    errors := errors
    errorStr := if errors.isEmpty then none
                else some (String.intercalate "; " errors)
    steps := steps }

/-- Mirror of `NotificationExecutor._execute_task` (`executor.py:147-212`).
Step 1 always attempts the mandatory local save first, recording an error
on failure. Step 2 iterates the CURRENT `self.config.notice_list` (not the
task's stored `notifier_configs`): entries of type `"local"` are skipped;
entries with a missing/empty type, or for which `_get_notifier` yields no
instance (unknown type or failed construction), are skipped silently;
otherwise the notifier's `send` is invoked with the entry's format
(default `"markdown"`) and a raised exception is recorded as
`Notification error for <type>: <msg>`. Finally the task is `COMPLETED`
when no error was recorded across all steps and `FAILED` otherwise, with
the errors joined by `"; "`. The oracle `getN` tells whether
`_get_notifier` produces an instance for a config, and `send` gives each
invoked channel's outcome. -/
def executeTask (localSave : SendRes) (getN : ChannelCfg → Bool)
    (send : ChannelCfg → String → SendRes)
    (noticeList : List ChannelCfg) : ExecResult :=
  let errors0 : List String :=
    match localSave with
    | .ok => []
    | .err e => ["Failed to save local report: " ++ e]
  let acc := noticeList.foldl
    (fun (acc : List String × List String) cfg =>
      let t := cfg.typeField.getD ""
      if t == "local" then acc
      else if t == "" then acc
      else if !(getN cfg) then acc
      else
        match send cfg (cfg.formatField.getD "markdown") with
        | .ok => (acc.1, acc.2 ++ [t])
        | .err e =>
            (acc.1 ++ ["Notification error for " ++ t ++ ": " ++ e],
             acc.2 ++ [t]))
    (errors0, ["local-save"])
  mkResult acc.1 acc.2

/-- The HTTP-method prefixes stripped by `LocalNotifier._generate_filename`
(`local.py:160`), each including its trailing space, in source order. -/
def httpMethods : List String :=
  ["GET ", "POST ", "PUT ", "DELETE ", "PATCH ", "HEAD ", "OPTIONS "]

/-- Strip the first matching HTTP-method prefix from the endpoint
(the source loop breaks after the first match). -/
def stripHttpMethod (e : String) : String :=
  match httpMethods.find? (fun m => e.startsWith m) with
  | some m => e.drop m.length
  | none => e

/-- The characters replaced by `_sanitize_filename`'s
`re.sub(r"[/\\?%*:|\"<>]", "_", name)` (`local.py:194`). -/
def fsSpecialChars : List Char :=
  ['/', '\\', '?', '%', '*', ':', '|', '"', '<', '>']

/-- First sanitization step: map each filesystem-special character
to an underscore. -/
def replaceSpecial (l : List Char) : List Char :=
  l.map (fun c => if fsSpecialChars.contains c then '_' else c)

/-- Second step, `re.sub(r"_+", "_", sanitized)`: collapse each maximal
run of underscores to a single one, encoded by repeatedly dropping the
first of two adjacent underscores. -/
def collapseUnderscores : List Char → List Char
  | [] => []
  | [c] => [c]
  | a :: b :: rest =>
      if a = '_' ∧ b = '_' then collapseUnderscores (b :: rest)
      else a :: collapseUnderscores (b :: rest)

/-- Third step, `sanitized.strip("_")`: drop underscores from both ends. -/
def stripUnderscoreEnds (l : List Char) : List Char :=
  ((l.dropWhile (· = '_')).reverse.dropWhile (· = '_')).reverse

/-- Mirror of `LocalNotifier._sanitize_filename` (`local.py:182-202`):
replace special characters, collapse underscore runs, strip underscores
from the ends, cap at 50 characters, and fall back to `"unknown"` when
the result is empty. -/
def sanitizeFilename (name : String) : String :=
  let s := stripUnderscoreEnds (collapseUnderscores (replaceSpecial name.toList))
  let s' := s.take 50
  if s'.isEmpty then "unknown" else String.mk s'

/-- The extension map of `_generate_filename` (`local.py:170-175`),
with default `"txt"`. -/
def extFor (format : String) : String :=
  if format = "html" then "html"
  else if format = "markdown" then "md"
  else if format = "text" then "txt"
  else "txt"

/-- Mirror of `LocalNotifier._generate_filename` (`local.py:142-180`):
`{sanitized-endpoint}_{first-8-chars-of-id}.{ext}`. -/
def generateFilename (endpoint id format : String) : String :=
  sanitizeFilename (stripHttpMethod endpoint) ++ "_" ++ id.take 8 ++ "." ++
    extFor format

/-- Looking up the key just written by `setAlert` yields the new record. -/
theorem lookup_setAlert_self (al : Alerts) (e : String) (r : AlertRecord) :
    lookupAlert (setAlert al e r) e = some r := by
  induction al with
  | nil => simp [setAlert, lookupAlert, List.find?]
  | cons hd tl ih =>
      obtain ⟨k, v⟩ := hd
      by_cases h : k == e
      · simp [setAlert, lookupAlert, List.find?, h]
      · simpa [setAlert, lookupAlert, List.find?, h] using ih

/-- After `record_alert` at time `t1`, the record for the endpoint carries
`last_alert_time = t1`, so a later `should_alert` at `now` returns exactly
the strict-window test `now - t1 > w`. -/
theorem shouldAlert_after_record (w : Int) (maxR : Nat) (al : Alerts)
    (e : String) (t1 now : Int) :
    shouldAlert w (recordAlert maxR t1 al e) now e = decide (now - t1 > w) := by
  unfold recordAlert
  cases h : lookupAlert al e <;>
    simp [shouldAlert, lookup_setAlert_self]

/-- Writing a fresh key with `setAlert` appends the pair. -/
theorem setAlert_of_not_mem (al : Alerts) (e : String) (r : AlertRecord)
    (h : e ∉ keysOf al) : setAlert al e r = al ++ [(e, r)] := by
  induction al with
  | nil => rfl
  | cons hd tl ih =>
      obtain ⟨k, v⟩ := hd
      have hk : ¬(k == e) := by
        simp only [keysOf, List.map_cons, List.mem_cons] at h
        simp only [beq_iff_eq]
        exact fun hkk => h (Or.inl hkk.symm)
      simp only [setAlert, if_neg hk]
      have : e ∉ keysOf tl := by
        simp only [keysOf, List.map_cons, List.mem_cons] at h
        exact fun hm => h (Or.inr hm)
      rw [ih this, List.cons_append]

/-- The loading fold over entries whose keys are fresh for the
accumulator and mutually distinct appends exactly the parsed entries. -/
theorem foldl_load_fresh (entries : List (String × SavedEntry)) :
    ∀ (acc : Alerts), (∀ p ∈ entries, p.1 ∉ keysOf acc) →
    (entries.map Prod.fst).Nodup →
    entries.foldl (fun al p =>
        match parseEntry p.1 p.2 with
        | some r => setAlert al p.1 r
        | none => al) acc =
      acc ++ entries.filterMap (fun p => (parseEntry p.1 p.2).map ((p.1, ·))) := by
  induction entries with
  | nil => intro acc _ _; simp
  | cons p rest ih =>
      intro acc hfresh hnd
      simp only [List.map_cons, List.nodup_cons] at hnd
      cases hp : parseEntry p.1 p.2 with
      | none =>
          simp only [List.foldl_cons, hp]
          rw [ih acc (fun q hq => hfresh q (List.mem_cons_of_mem p hq)) hnd.2]
          simp [hp]
      | some r =>
          simp only [List.foldl_cons, hp]
          rw [setAlert_of_not_mem acc p.1 r (hfresh p (List.mem_cons_self p rest))]
          rw [ih (acc ++ [(p.1, r)]) ?_ hnd.2]
          · simp [hp]
          · intro q hq
            simp only [keysOf, List.map_append, List.mem_append]
            rintro (hin | hin)
            · exact hfresh q (List.mem_cons_of_mem p hq) hin
            · simp only [List.map_cons, List.map_nil, List.mem_singleton] at hin
              exact hnd.1 (hin ▸ List.mem_map_of_mem Prod.fst hq)

end WebPerfMonitor

namespace WebPerfMonitor

/-- C1: `process_profile` performs deduplication through the single atomic
`shouldAlertAndRecord` operation and hands the profile to the executor's
submit exactly when that operation returns `true`; on `false` nothing is
submitted, and in both cases the store state is exactly the state produced
by that one operation. -/
theorem processProfile_atomic_submit (w : Int) (maxR : Nat) (al : Alerts)
    (now : Int) (p : Profile) :
    (processProfile w maxR al now p).2 =
      (if (shouldAlertAndRecord w maxR al now p.endpoint).1 then [p] else []) ∧
    (processProfile w maxR al now p).1 =
      (shouldAlertAndRecord w maxR al now p.endpoint).2 := by
  unfold processProfile
  constructor
  · by_cases h : (shouldAlertAndRecord w maxR al now p.endpoint).1 <;> simp [h]
  · by_cases h : (shouldAlertAndRecord w maxR al now p.endpoint).1 <;> simp [h]

/-- C3 (counterexample to the claim as stated): with `alertWindow = 2`,
after the check-and-record for `/api/users` at `t1 = 0`, a second check at
`t2' = 2` satisfies `t2' - t1 >= alertWindow`, yet `should_alert` returns
`false` — the code uses the strict comparison `now - last_alert_time > w`. -/
theorem shouldAlert_boundary_counterexample :
    shouldAlert 2 (recordAlert 100 0 [] "/api/users") 2 "/api/users" = false := by
  rfl

/-- C3 (amended): after the check-and-record for endpoint `e` performed at
`t1` (which yielded `true` and recorded), a second check at `t2` with
`t2 - t1 < alertWindow` yields `false`, and a second check at `t2'` with
`t2' - t1 > alertWindow` (strictly greater, not `>=`) yields `true`;
moreover in general the check returns `true` iff no record exists for the
endpoint or the existing record's `lastAlertTime` is older than
`now - alertWindow`. -/
theorem shouldAlert_dedup_window (w : Int) (maxR : Nat) (al : Alerts)
    (e : String) (t1 t2 t2' : Int)
    (hrun : shouldAlert w al t1 e = true) (h12 : t1 < t2) (h12' : t1 < t2') :
    (t2 - t1 < w → shouldAlert w (recordAlert maxR t1 al e) t2 e = false) ∧
    (t2' - t1 > w → shouldAlert w (recordAlert maxR t1 al e) t2' e = true) ∧
    (∀ (s : Alerts) (now : Int) (e' : String),
      shouldAlert w s now e' = true ↔
        lookupAlert s e' = none ∨
          ∃ r, lookupAlert s e' = some r ∧ r.lastAlertTime < now - w) := by
  refine ⟨?_, ?_, ?_⟩
  · intro hlt
    rw [shouldAlert_after_record]
    simp only [decide_eq_false_iff_not]
    omega
  · intro hgt
    rw [shouldAlert_after_record]
    simp only [decide_eq_true_eq]
    omega
  · intro s now e'
    unfold shouldAlert
    cases h : lookupAlert s e' with
    | none => simp
    | some r =>
        simp only [decide_eq_true_eq, Option.some.injEq]
        constructor
        · intro hw
          exact Or.inr ⟨r, rfl, by omega⟩
        · rintro (hc | ⟨r', hr', hlt⟩)
          · simp at hc
          · obtain rfl : r' = r := by simpa using hr'.symm
            omega

/-- C3 witness: the amended theorem applied at `w = 10`, `t1 = 0`,
`t2 = 5`, `t2' = 11` on the empty store for `/api/users`. -/
theorem shouldAlert_dedup_window_witness :
    shouldAlert 10 (recordAlert 100 0 [] "/api/users") 5 "/api/users" = false ∧
    shouldAlert 10 (recordAlert 100 0 [] "/api/users") 11 "/api/users" = true :=
  ⟨(shouldAlert_dedup_window 10 100 [] "/api/users" 0 5 11 rfl
      (by decide) (by decide)).1 (by decide),
   ((shouldAlert_dedup_window 10 100 [] "/api/users" 0 5 11 rfl
      (by decide) (by decide)).2).1 (by decide)⟩

/-- C8: constructing a store from a malformed-JSON persistence file yields
an empty store (the load total — nothing raises) and immediately rewrites
the file as the empty JSON object, and a missing persistence file likewise
yields an empty store (leaving the file absent). -/
theorem loadStore_corrupt_recovery :
    loadStore .invalidJson = ⟨[], .valid []⟩ ∧
    loadStore .invalidJson = ⟨[], saveAlerts []⟩ ∧
    loadStore .missing = ⟨[], .missing⟩ := by
  refine ⟨rfl, rfl, rfl⟩

/-- C10: when the persistence file parses as valid JSON but some entries
are invalid (missing `last_alert` or an unparsable timestamp), loading
keeps exactly the valid records, in order, and skips the invalid entries;
the load is a total function, so nothing raises. -/
theorem loadStore_skips_invalid (entries : List (String × SavedEntry))
    (hnd : (entries.map Prod.fst).Nodup) :
    (loadStore (.valid entries)).alerts =
      entries.filterMap (fun p => (parseEntry p.1 p.2).map ((p.1, ·))) := by
  unfold loadStore
  simpa using foldl_load_fresh entries [] (by simp [keysOf]) hnd

/-- C10 witness: a file with two valid entries, one entry missing
`last_alert` and one with an unparsable timestamp loads exactly the two
valid records. -/
theorem loadStore_skips_invalid_witness :
    (List.map Prod.fst
        [("a", SavedEntry.mk (some (.parsable 5)) (some 3)),
         ("b", SavedEntry.mk none (some 2)),
         ("c", SavedEntry.mk (some .unparsable) none),
         ("d", SavedEntry.mk (some (.parsable 7)) none)]).Nodup ∧
    (loadStore (.valid
        [("a", SavedEntry.mk (some (.parsable 5)) (some 3)),
         ("b", SavedEntry.mk none (some 2)),
         ("c", SavedEntry.mk (some .unparsable) none),
         ("d", SavedEntry.mk (some (.parsable 7)) none)])).alerts =
      [("a", AlertRecord.mk "a" 5 3), ("d", AlertRecord.mk "d" 7 1)] :=
  ⟨by decide,
   by
    rw [loadStore_skips_invalid _ (by decide)]
    rfl⟩

/-- C7: for every record set satisfying the store invariants (unique
endpoint keys, each record carrying its own key as `endpoint`), saving to
the backing file and loading that file into a fresh store reproduces the
record set exactly: same endpoints, same `lastAlertTime` (ISO-8601
serialization round-trips at full precision), same counts. -/
theorem save_load_round_trip (al : Alerts) (hnd : NodupKeys al)
    (hcons : ∀ p ∈ al, p.2.endpoint = p.1) :
    (loadStore (saveAlerts al)).alerts = al := by
  have hkeys : ((al.map (fun p : String × AlertRecord =>
      (p.1, SavedEntry.mk (some (.parsable p.2.lastAlertTime))
        (some p.2.alertCount)))).map Prod.fst).Nodup := by
    rw [List.map_map]
    exact hnd
  unfold saveAlerts
  rw [loadStore_skips_invalid _ hkeys, List.filterMap_map]
  have hstep : ∀ p ∈ al,
      ((fun p : String × SavedEntry => (parseEntry p.1 p.2).map ((p.1, ·))) ∘
        (fun p : String × AlertRecord =>
          (p.1, SavedEntry.mk (some (.parsable p.2.lastAlertTime))
            (some p.2.alertCount)))) p = some p := by
    intro p hp
    obtain ⟨e, re, rt, rc⟩ := p
    have he : re = e := hcons (e, ⟨re, rt, rc⟩) hp
    subst he
    simp [parseEntry]
  rw [List.filterMap_congr hstep, List.filterMap_some]

/-- Collapsing underscore runs only keeps characters of the input. -/
theorem mem_collapseUnderscores (c : Char) :
    ∀ l, c ∈ collapseUnderscores l → c ∈ l := by
  intro l
  induction l using collapseUnderscores.induct with
  | case1 => simp [collapseUnderscores]
  | case2 d => simp [collapseUnderscores]
  | case3 a b rest hab ih =>
      simp only [collapseUnderscores, if_pos hab]
      intro h; exact List.mem_cons_of_mem a (ih h)
  | case4 a b rest hab ih =>
      simp only [collapseUnderscores, if_neg hab]
      intro h
      rcases List.mem_cons.mp h with rfl | h'
      · exact List.mem_cons_self _ _
      · exact List.mem_cons_of_mem a (ih h')

/-- Collapsing underscore runs keeps the head character. -/
theorem head?_collapseUnderscores :
    ∀ l : List Char, (collapseUnderscores l).head? = l.head? := by
  intro l
  induction l using collapseUnderscores.induct with
  | case1 => rfl
  | case2 d => rfl
  | case3 a b rest hab ih =>
      simp only [collapseUnderscores, if_pos hab]
      rw [ih]
      simp [hab.1, hab.2]
  | case4 a b rest hab ih =>
      simp [collapseUnderscores, if_neg hab]

/-- After collapsing, no two adjacent characters are both underscores. -/
theorem chain'_collapseUnderscores :
    ∀ l : List Char,
      (collapseUnderscores l).Chain' (fun a b => ¬(a = '_' ∧ b = '_')) := by
  intro l
  induction l using collapseUnderscores.induct with
  | case1 => simp [collapseUnderscores]
  | case2 d => simp [collapseUnderscores]
  | case3 a b rest hab ih =>
      simpa only [collapseUnderscores, if_pos hab] using ih
  | case4 a b rest hab ih =>
      simp only [collapseUnderscores, if_neg hab]
      rw [List.chain'_cons']
      refine ⟨?_, ih⟩
      intro y hy
      rw [head?_collapseUnderscores, List.head?_cons, Option.mem_some_iff] at hy
      subst hy
      exact hab

/-- The head of `dropWhile p` never satisfies `p`. -/
theorem dropWhile_head?_false (p : Char → Bool) :
    ∀ (l : List Char) (c : Char),
      (List.dropWhile p l).head? = some c → p c = false := by
  intro l
  induction l with
  | nil => intro c h; simp [List.dropWhile] at h
  | cons a t ih =>
      intro c h
      by_cases hp : p a
      · rw [List.dropWhile_cons_of_pos hp] at h
        exact ih c h
      · rw [List.dropWhile_cons_of_neg hp] at h
        simp only [List.head?_cons, Option.some.injEq] at h
        subst h
        exact Bool.of_not_eq_true hp

/-- Stripping underscores from both ends leaves no underscore at either
end of the result. -/
theorem stripUnderscoreEnds_no_end_underscore (l : List Char) :
    (stripUnderscoreEnds l).head? ≠ some '_' ∧
    (stripUnderscoreEnds l).getLast? ≠ some '_' := by
  unfold stripUnderscoreEnds
  constructor
  · intro h
    rw [List.head?_reverse] at h
    set x := List.dropWhile (fun c => decide (c = '_')) l with hx
    set y := List.dropWhile (fun c => decide (c = '_')) x.reverse with hyy
    have hy : y ≠ [] := by
      intro hnil
      rw [hnil] at h
      simp at h
    obtain ⟨t, ht⟩ : y <:+ x.reverse := List.dropWhile_suffix _
    have hlast : (t ++ y).getLast? = y.getLast? :=
      List.getLast?_append_of_ne_nil _ hy
    rw [ht, List.getLast?_reverse] at hlast
    rw [← hlast] at h
    have := dropWhile_head?_false (fun c => decide (c = '_')) l '_' h
    simp at this
  · intro h
    rw [List.getLast?_reverse] at h
    have := dropWhile_head?_false (fun c => decide (c = '_')) _ '_' h
    simp at this

/-- The result of stripping both ends only keeps characters of the input. -/
theorem mem_stripUnderscoreEnds (c : Char) (l : List Char)
    (h : c ∈ stripUnderscoreEnds l) : c ∈ l := by
  unfold stripUnderscoreEnds at h
  rw [List.mem_reverse] at h
  have h1 := (List.dropWhile_sublist (l := (List.dropWhile
      (fun c => decide (c = '_')) l).reverse) (p := fun c => decide (c = '_'))).subset h
  rw [List.mem_reverse] at h1
  exact (List.dropWhile_sublist (l := l) (p := fun c => decide (c = '_'))).subset h1

/-- A lookup misses exactly when the endpoint is not among the keys. -/
theorem lookupAlert_eq_none_iff (al : Alerts) (e : String) :
    lookupAlert al e = none ↔ e ∉ keysOf al := by
  unfold lookupAlert keysOf
  rw [Option.map_eq_none', List.find?_eq_none]
  constructor
  · intro h hmem
    obtain ⟨p, hp, hpe⟩ := List.mem_map.mp hmem
    exact h p hp (by simp [hpe])
  · intro h p hp hbeq
    exact h (List.mem_map.mpr ⟨p, hp, by simpa using hbeq⟩)

/-- A successful lookup implies key membership. -/
theorem mem_keysOf_of_lookup_some (al : Alerts) (e : String) (r : AlertRecord)
    (h : lookupAlert al e = some r) : e ∈ keysOf al := by
  by_contra hmem
  rw [(lookupAlert_eq_none_iff al e).mpr hmem] at h
  cases h

/-- Overwriting an existing key keeps the length. -/
theorem length_setAlert_mem (al : Alerts) (e : String) (r : AlertRecord)
    (h : e ∈ keysOf al) : (setAlert al e r).length = al.length := by
  induction al with
  | nil => cases h
  | cons hd tl ih =>
      obtain ⟨k, v⟩ := hd
      by_cases hk : k == e
      · simp [setAlert, hk]
      · have he : e ∈ keysOf tl := by
          rcases List.mem_cons.mp h with h' | h'
          · exact absurd (beq_iff_eq.mpr h'.symm) hk
          · exact h'
        simp [setAlert, hk, ih he]

/-- Overwriting an existing key keeps the key list. -/
theorem keysOf_setAlert_mem (al : Alerts) (e : String) (r : AlertRecord)
    (h : e ∈ keysOf al) : keysOf (setAlert al e r) = keysOf al := by
  induction al with
  | nil => cases h
  | cons hd tl ih =>
      obtain ⟨k, v⟩ := hd
      by_cases hk : k == e
      · simp [setAlert, hk, keysOf]
      · have he : e ∈ keysOf tl := by
          rcases List.mem_cons.mp h with h' | h'
          · exact absurd (beq_iff_eq.mpr h'.symm) hk
          · exact h'
        simp only [setAlert, if_neg hk, keysOf, List.map_cons]
        rw [show (setAlert tl e r).map Prod.fst = keysOf (setAlert tl e r) from rfl,
          ih he]
        rfl

/-- In a store with unique keys, pairs with equal keys are equal. -/
theorem pair_eq_of_same_key (al : Alerts) (hnd : NodupKeys al)
    {p q : String × AlertRecord} (hp : p ∈ al) (hq : q ∈ al)
    (hk : p.1 = q.1) : p = q := by
  induction al with
  | nil => cases hp
  | cons a t ih =>
      have hnd' : a.1 ∉ keysOf t ∧ NodupKeys t := by
        have := hnd
        unfold NodupKeys keysOf at this ⊢
        rw [List.map_cons, List.nodup_cons] at this
        exact this
      rcases List.mem_cons.mp hp with rfl | hp' <;>
        rcases List.mem_cons.mp hq with h | hq'
      · rw [h]
      · exact absurd (hk ▸ List.mem_map_of_mem Prod.fst hq') hnd'.1
      · rw [← h] at hnd'
        exact absurd (hk ▸ List.mem_map_of_mem Prod.fst hp') (hk ▸ hnd'.1)
      · exact ih hnd'.2 hp' hq'

/-- The eviction result's keys form a sublist of the original keys. -/
theorem evict_keys_sublist (maxR : Nat) (al : Alerts) :
    List.Sublist (keysOf (evictIfNeeded maxR al)) (keysOf al) := by
  unfold evictIfNeeded
  split
  · exact List.Sublist.refl _
  · exact (List.filter_sublist al).map Prod.fst

/-- Eviction preserves unique keys. -/
theorem nodupKeys_evict (maxR : Nat) (al : Alerts) (hnd : NodupKeys al) :
    NodupKeys (evictIfNeeded maxR al) :=
  List.Nodup.sublist (evict_keys_sublist maxR al) hnd

/-- When the store is at or above capacity, eviction removes exactly
`max 1 (maxR / 10)` records, and every removed record is no newer (by
`last_alert_time`) than every kept record. The model sorts with
insertion sort; Python's stable `sorted` may order ties differently, but
both conclusions are independent of tie order. -/
theorem evict_package (maxR : Nat) (al : Alerts) (hnd : NodupKeys al)
    (hge : maxR ≤ al.length) (hmax : 1 ≤ maxR) :
    (evictIfNeeded maxR al).length = al.length - Nat.max 1 (maxR / 10) ∧
    (∀ p ∈ al, p.1 ∉ keysOf (evictIfNeeded maxR al) →
      ∀ q ∈ al, q.1 ∈ keysOf (evictIfNeeded maxR al) →
        p.2.lastAlertTime ≤ q.2.lastAlertTime) := by
  have hnlt : ¬(al.length < maxR) := by omega
  set ec := Nat.max 1 (maxR / 10) with hec
  set sorted := List.insertionSort byTime al with hsorted
  set victims := (sorted.take ec).map Prod.fst with hvic
  have hev : evictIfNeeded maxR al =
      al.filter (fun p => !(victims.contains p.1)) := by
    rw [evictIfNeeded, if_neg hnlt]
  have hperm : sorted.Perm al := List.perm_insertionSort byTime al
  have hsortnd : (sorted.map Prod.fst).Nodup :=
    ((hperm.map Prod.fst).nodup_iff).mpr hnd
  have hsplit : sorted.take ec ++ sorted.drop ec = sorted :=
    List.take_append_drop ec sorted
  have hkeysplit : (sorted.take ec).map Prod.fst ++
      (sorted.drop ec).map Prod.fst = sorted.map Prod.fst := by
    rw [← List.map_append, hsplit]
  have hdisj : ∀ x ∈ sorted.drop ec, x.1 ∉ victims := by
    intro x hx hmem
    have h2 : x.1 ∈ (sorted.drop ec).map Prod.fst :=
      List.mem_map_of_mem Prod.fst hx
    have h3 := hkeysplit ▸ hsortnd
    rw [List.nodup_append] at h3
    exact h3.2.2 hmem h2
  have hfiltake : (sorted.take ec).filter
      (fun p => !(victims.contains p.1)) = [] := by
    rw [List.filter_eq_nil_iff]
    intro x hx
    have hm : x.1 ∈ victims := List.mem_map_of_mem Prod.fst hx
    simp [List.contains, List.elem_iff, hm]
  have hfildrop : (sorted.drop ec).filter
      (fun p => !(victims.contains p.1)) = sorted.drop ec := by
    rw [List.filter_eq_self]
    intro x hx
    have hm := hdisj x hx
    simp [List.contains, List.elem_iff, hm]
  have hfilsorted : sorted.filter (fun p => !(victims.contains p.1)) =
      sorted.drop ec := by
    have h4 : sorted.filter (fun p => !(victims.contains p.1)) =
        (sorted.take ec ++ sorted.drop ec).filter
          (fun p => !(victims.contains p.1)) := by rw [hsplit]
    rw [List.filter_append, hfiltake, hfildrop] at h4
    simpa using h4
  have hfl : (al.filter (fun p => !(victims.contains p.1))).Perm
      (sorted.drop ec) := by
    have h5 := (hperm.symm).filter (fun p => !(victims.contains p.1))
    rw [hfilsorted] at h5
    exact h5
  have hlen : (evictIfNeeded maxR al).length = al.length - ec := by
    rw [hev, hfl.length_eq, List.length_drop, hperm.length_eq]
  refine ⟨hlen, ?_⟩
  intro p hp hpnot q hq hqmem
  rw [hev] at hpnot hqmem
  have hpv : p.1 ∈ victims := by
    by_contra hnv
    apply hpnot
    have hpfil : p ∈ al.filter (fun p => !(victims.contains p.1)) :=
      List.mem_filter.mpr ⟨hp, by simp [List.contains, List.elem_iff, hnv]⟩
    exact List.mem_map_of_mem Prod.fst hpfil
  obtain ⟨x, hxtake, hxkey⟩ := List.mem_map.mp hpv
  have hxal : x ∈ al := hperm.mem_iff.mp (List.take_subset ec sorted hxtake)
  have hxp : x = p := pair_eq_of_same_key al hnd hxal hp hxkey
  have hptake : p ∈ sorted.take ec := hxp ▸ hxtake
  obtain ⟨y, hyfil, hykey⟩ := List.mem_map.mp hqmem
  have hyal : y ∈ al := (List.filter_sublist al).subset hyfil
  have hyq : y = q := pair_eq_of_same_key al hnd hyal hq hykey
  have hqfil : q ∈ al.filter (fun p => !(victims.contains p.1)) := hyq ▸ hyfil
  have hqnv : q.1 ∉ victims := by
    have := (List.mem_filter.mp hqfil).2
    simpa [List.contains, List.elem_iff] using this
  have hqsorted : q ∈ sorted := hperm.mem_iff.mpr hq
  have hqsplit : q ∈ sorted.take ec ++ sorted.drop ec := by
    rw [hsplit]; exact hqsorted
  have hqdrop : q ∈ sorted.drop ec := by
    rcases List.mem_append.mp hqsplit with h6 | h6
    · exact absurd (List.mem_map_of_mem Prod.fst h6) hqnv
    · exact h6
  have hsort : sorted.Pairwise byTime := List.sorted_insertionSort byTime al
  have hpair : (sorted.take ec ++ sorted.drop ec).Pairwise byTime := by
    rw [hsplit]; exact hsort
  exact (List.pairwise_append.mp hpair).2.2 p hptake q hqdrop

/-- Below capacity, eviction is the identity. -/
theorem evictIfNeeded_of_lt (maxR : Nat) (al : Alerts)
    (h : al.length < maxR) : evictIfNeeded maxR al = al := by
  rw [evictIfNeeded, if_pos h]

/-- One `record_alert` call preserves the store invariant: unique keys
and at most `maxR` resident records. -/
theorem recordAlert_preserves (maxR : Nat) (now : Int) (al : Alerts)
    (e : String) (hmax : 1 ≤ maxR) (hnd : NodupKeys al)
    (hlen : al.length ≤ maxR) :
    NodupKeys (recordAlert maxR now al e) ∧
      (recordAlert maxR now al e).length ≤ maxR := by
  unfold recordAlert
  cases hlook : lookupAlert al e with
  | some r =>
      have hmem : e ∈ keysOf al := mem_keysOf_of_lookup_some al e r hlook
      constructor
      · show NodupKeys (setAlert al e _)
        unfold NodupKeys
        rw [keysOf_setAlert_mem al e _ hmem]
        exact hnd
      · rw [length_setAlert_mem al e _ hmem]
        exact hlen
  | none =>
      have hmem : e ∉ keysOf al := (lookupAlert_eq_none_iff al e).mp hlook
      have hmemev : e ∉ keysOf (evictIfNeeded maxR al) := fun h =>
        hmem ((evict_keys_sublist maxR al).subset h)
      have hset := setAlert_of_not_mem (evictIfNeeded maxR al) e
        ⟨e, now, 1⟩ hmemev
      have hndev : NodupKeys (evictIfNeeded maxR al) :=
        nodupKeys_evict maxR al hnd
      have hndres : NodupKeys (setAlert (evictIfNeeded maxR al) e ⟨e, now, 1⟩) := by
        rw [hset]
        unfold NodupKeys keysOf
        rw [List.map_append, List.nodup_append]
        refine ⟨hndev, by simp, ?_⟩
        intro a ha hb
        simp only [List.map_cons, List.map_nil, List.mem_singleton] at hb
        exact hmemev (hb ▸ ha)
      refine ⟨hndres, ?_⟩
      rw [hset, List.length_append]
      by_cases hlt : al.length < maxR
      · rw [evictIfNeeded_of_lt maxR al hlt]
        simpa using hlt
      · have hge : maxR ≤ al.length := by omega
        have hpack := (evict_package maxR al hnd hge hmax).1
        rw [hpack]
        have hec : 1 ≤ Nat.max 1 (maxR / 10) := Nat.le_max_left 1 _
        simp only [List.length_cons, List.length_nil]
        omega

/-- Folding `record_alert` over any call sequence keeps the invariant. -/
theorem foldl_recordAlert_invariant (maxR : Nat) (hmax : 1 ≤ maxR) :
    ∀ (calls : List (String × Int)) (al : Alerts),
      NodupKeys al → al.length ≤ maxR →
      NodupKeys (calls.foldl (fun a c => recordAlert maxR c.2 a c.1) al) ∧
        (calls.foldl (fun a c => recordAlert maxR c.2 a c.1) al).length ≤ maxR := by
  intro calls
  induction calls with
  | nil => intro al hnd hlen; exact ⟨hnd, hlen⟩
  | cons c rest ih =>
      intro al hnd hlen
      have hstep := recordAlert_preserves maxR c.2 al c.1 hmax hnd hlen
      exact ih _ hstep.1 hstep.2

/-- `sanitizeFilename` either falls back to `"unknown"` or returns the
nonempty truncated pipeline output. -/
theorem sanitizeFilename_eq_ite (s : String) :
    sanitizeFilename s =
      (if ((stripUnderscoreEnds (collapseUnderscores
          (replaceSpecial s.toList))).take 50).isEmpty then "unknown"
       else String.mk ((stripUnderscoreEnds (collapseUnderscores
          (replaceSpecial s.toList))).take 50)) := rfl

theorem sanitizeFilename_cases (s : String) :
    sanitizeFilename s = "unknown" ∨
    ∃ l, sanitizeFilename s = String.mk l ∧ l ≠ [] ∧
      l = (stripUnderscoreEnds
            (collapseUnderscores (replaceSpecial s.toList))).take 50 := by
  by_cases hE : ((stripUnderscoreEnds
      (collapseUnderscores (replaceSpecial s.toList))).take 50).isEmpty
  · left
    rw [sanitizeFilename_eq_ite, if_pos hE]
  · right
    exact ⟨_, by rw [sanitizeFilename_eq_ite, if_neg hE],
      by simpa [List.isEmpty_iff] using hE, rfl⟩

/-- Stripping both ends preserves adjacent-pair properties, for any
symmetric relation. -/
theorem chain'_stripUnderscoreEnds (R : Char → Char → Prop)
    (hsymm : ∀ a b, R a b → R b a) (l : List Char) (h : l.Chain' R) :
    (stripUnderscoreEnds l).Chain' R := by
  unfold stripUnderscoreEnds
  have h1 : (l.dropWhile (fun c => decide (c = '_'))).Chain' R :=
    List.Chain'.suffix h (List.dropWhile_suffix _)
  have h2 : ((l.dropWhile (fun c => decide (c = '_'))).reverse).Chain' R := by
    rw [List.chain'_reverse]
    exact List.Chain'.imp (fun a b hab => hsymm a b hab) h1
  have h3 : (((l.dropWhile (fun c => decide (c = '_'))).reverse).dropWhile
      (fun c => decide (c = '_'))).Chain' R :=
    List.Chain'.suffix h2 (List.dropWhile_suffix _)
  rw [List.chain'_reverse]
  exact List.Chain'.imp (fun a b hab => hsymm a b hab) h3

/-- A task's final status is `completed` exactly when its error list is
empty, `failed` otherwise. -/
theorem mkResult_status_completed_iff (es st : List String) :
    (mkResult es st).status = .completed ↔ (mkResult es st).errors = [] := by
  cases es <;> simp [mkResult]

/-- C2: with three configured external channels where channel 2's send
raises, the worker still invokes channels 1 and 3 in list order, after
the mandatory local save which is attempted first and completes; the
final status is `failed` with exactly one recorded error referencing
channel 2. In general, the status after all channels are attempted is
`completed` iff zero errors were recorded across all steps (including
the local save). -/
theorem executeTask_channel_isolation :
    ((executeTask .ok (fun _ => true)
        (fun c _ => if c.typeField == some "email" then .err "boom" else .ok)
        [⟨some "mattermost", some "markdown"⟩, ⟨some "email", none⟩,
         ⟨some "webhook", some "text"⟩]).steps =
      ["local-save", "mattermost", "email", "webhook"] ∧
     (executeTask .ok (fun _ => true)
        (fun c _ => if c.typeField == some "email" then .err "boom" else .ok)
        [⟨some "mattermost", some "markdown"⟩, ⟨some "email", none⟩,
         ⟨some "webhook", some "text"⟩]).errors =
      ["Notification error for email: boom"] ∧
     (executeTask .ok (fun _ => true)
        (fun c _ => if c.typeField == some "email" then .err "boom" else .ok)
        [⟨some "mattermost", some "markdown"⟩, ⟨some "email", none⟩,
         ⟨some "webhook", some "text"⟩]).status = .failed) ∧
    ∀ (localSave : SendRes) (getN : ChannelCfg → Bool)
      (send : ChannelCfg → String → SendRes) (nl : List ChannelCfg),
      (executeTask localSave getN send nl).status = .completed ↔
        (executeTask localSave getN send nl).errors = [] := by
  refine ⟨⟨rfl, rfl, rfl⟩, ?_⟩
  intro localSave getN send nl
  exact mkResult_status_completed_iff _ _

/-- C4: `submit` returns `none` iff shutdown has begun; otherwise it
creates a `PENDING` task and enqueues it, and when the bounded queue is
already full the oldest queued task is discarded first so the newer ones
(and the new task) are retained. -/
theorem submit_drop_oldest (s : ExecutorState) (p : Profile)
    (newId : String) (now : Int) :
    ((submit s p newId now).1 = none ↔ s.isShut = true) ∧
    (s.isShut = false →
      (submit s p newId now).1 =
        some ⟨newId, p, s.noticeList, now, .pending⟩) ∧
    (s.isShut = false → 0 < s.capacity → s.capacity ≤ s.queue.length →
      (submit s p newId now).2 =
        s.queue.drop 1 ++ [⟨newId, p, s.noticeList, now, .pending⟩]) ∧
    (s.isShut = false → s.queue.length < s.capacity →
      (submit s p newId now).2 =
        s.queue ++ [⟨newId, p, s.noticeList, now, .pending⟩]) := by
  refine ⟨?_, ?_, ?_, ?_⟩
  · by_cases h : s.isShut <;> simp [submit, h]
  · intro h; simp [submit, h]
  · intro h hc hl
    cases hq : s.queue with
    | nil => rw [hq] at hl; simp at hl; omega
    | cons a t =>
        have hl' : s.capacity ≤ t.length + 1 := by
          rw [hq] at hl; simpa using hl
        simp [submit, h, hq, hc, hl']
  · intro h hl
    have hcond : ¬(0 < s.capacity ∧ s.capacity ≤ s.queue.length) := by omega
    simp [submit, h, hcond]

/-- C4 witness: at a shutdown executor `submit` yields `none`; at a
non-shutdown executor whose capacity-1 queue already holds one task,
submitting drops that oldest task and retains the new `PENDING` task. -/
theorem submit_drop_oldest_witness :
    (submit ⟨true, [], 1, []⟩ ⟨"p0", "/x"⟩ "n" 0).1 = none ∧
    (submit ⟨false, [⟨"t0", ⟨"p0", "/x"⟩, [], 0, .pending⟩], 1, []⟩
        ⟨"p0", "/x"⟩ "n" 5).1 = some ⟨"n", ⟨"p0", "/x"⟩, [], 5, .pending⟩ ∧
    (submit ⟨false, [⟨"t0", ⟨"p0", "/x"⟩, [], 0, .pending⟩], 1, []⟩
        ⟨"p0", "/x"⟩ "n" 5).2 = [⟨"n", ⟨"p0", "/x"⟩, [], 5, .pending⟩] :=
  ⟨(submit_drop_oldest ⟨true, [], 1, []⟩ ⟨"p0", "/x"⟩ "n" 0).1.mpr rfl,
   (submit_drop_oldest ⟨false, [⟨"t0", ⟨"p0", "/x"⟩, [], 0, .pending⟩], 1, []⟩
      ⟨"p0", "/x"⟩ "n" 5).2.1 rfl,
   by
    rw [(submit_drop_oldest ⟨false, [⟨"t0", ⟨"p0", "/x"⟩, [], 0, .pending⟩], 1, []⟩
      ⟨"p0", "/x"⟩ "n" 5).2.2.1 rfl (by decide) (by decide)]
    rfl⟩

/-- C6 (code at the failing input): `submit` stores the current
`notice_list` on the task, but `_execute_task` iterates the live
`self.config.notice_list` instead of the task's snapshot — so a task
submitted while the list contained a mattermost channel delivers to no
external channel once the list is emptied before the worker runs, while
execution against the unchanged list would have delivered to mattermost. -/
theorem executeTask_ignores_task_snapshot :
    (submit ⟨false, [], 5, [⟨some "mattermost", some "markdown"⟩]⟩
        ⟨"p1", "/api"⟩ "t1" 0).1 =
      some ⟨"t1", ⟨"p1", "/api"⟩,
        [⟨some "mattermost", some "markdown"⟩], 0, .pending⟩ ∧
    (executeTask .ok (fun _ => true) (fun _ _ => .ok) []).steps =
      ["local-save"] ∧
    (executeTask .ok (fun _ => true) (fun _ _ => .ok)
        [⟨some "mattermost", some "markdown"⟩]).steps =
      ["local-save", "mattermost"] :=
  ⟨rfl, rfl, rfl⟩

/-- C9: the local notifier's filename is
`{sanitized-endpoint}_{first-8-chars-of-id}.{ext}` with extensions
`html`/`md`/`txt` for formats `html`/`markdown`/`text`; the sanitization
strips a known leading HTTP-method token, replaces each filesystem-special
character with `_` (none remains), collapses runs of `_` (no two adjacent
`_` remain), strips leading and trailing `_` (neither end of the stripped
list is `_`), caps the result at 50 characters, and yields `"unknown"`
when the result is empty (so the result is never the empty string). -/
theorem generateFilename_spec :
    (∀ e i : String,
      generateFilename e i "html" =
        sanitizeFilename (stripHttpMethod e) ++ "_" ++ i.take 8 ++ ".html" ∧
      generateFilename e i "markdown" =
        sanitizeFilename (stripHttpMethod e) ++ "_" ++ i.take 8 ++ ".md" ∧
      generateFilename e i "text" =
        sanitizeFilename (stripHttpMethod e) ++ "_" ++ i.take 8 ++ ".txt") ∧
    (∀ s : String, (sanitizeFilename s).length ≤ 50) ∧
    (∀ s : String, sanitizeFilename s ≠ "") ∧
    (∀ (s : String) (c : Char),
      c ∈ (sanitizeFilename s).toList → c ∉ fsSpecialChars) ∧
    (∀ s : String,
      (sanitizeFilename s).toList.Chain' (fun a b => ¬(a = '_' ∧ b = '_'))) ∧
    (∀ l : List Char,
      (stripUnderscoreEnds l).head? ≠ some '_' ∧
      (stripUnderscoreEnds l).getLast? ≠ some '_') := by
  refine ⟨fun e i => ⟨?_, ?_, ?_⟩, ?_, ?_, ?_, ?_,
    stripUnderscoreEnds_no_end_underscore⟩
  · show sanitizeFilename (stripHttpMethod e) ++ "_" ++ i.take 8 ++ "." ++
      extFor "html" = _
    rw [String.append_assoc]; rfl
  · show sanitizeFilename (stripHttpMethod e) ++ "_" ++ i.take 8 ++ "." ++
      extFor "markdown" = _
    rw [String.append_assoc]; rfl
  · show sanitizeFilename (stripHttpMethod e) ++ "_" ++ i.take 8 ++ "." ++
      extFor "text" = _
    rw [String.append_assoc]; rfl
  · intro s
    rcases sanitizeFilename_cases s with h | ⟨l, hEq, hne, hl⟩
    · rw [h]; decide
    · rw [hEq]
      show l.length ≤ 50
      rw [hl]
      exact List.length_take_le _ _
  · intro s
    rcases sanitizeFilename_cases s with h | ⟨l, hEq, hne, hl⟩
    · rw [h]; decide
    · rw [hEq]
      intro hcontra
      exact hne (congrArg String.data hcontra)
  · intro s c hc
    rcases sanitizeFilename_cases s with h | ⟨l, hEq, hne, hl⟩
    · rw [h] at hc
      have : c ∈ ['u', 'n', 'k', 'n', 'o', 'w', 'n'] := hc
      simp only [List.mem_cons, List.not_mem_nil, or_false] at this
      rcases this with rfl | rfl | rfl | rfl | rfl | rfl | rfl <;> decide
    · rw [hEq] at hc
      have hc1 : c ∈ l := hc
      rw [hl] at hc1
      have hc2 := List.take_subset _ _ hc1
      have hc3 := mem_stripUnderscoreEnds c _ hc2
      have hc4 := mem_collapseUnderscores c _ hc3
      simp only [replaceSpecial, List.mem_map] at hc4
      obtain ⟨a, _, ha⟩ := hc4
      by_cases hcont : fsSpecialChars.contains a
      · rw [if_pos hcont] at ha
        rw [← ha]
        decide
      · rw [if_neg hcont] at ha
        subst ha
        intro hmem
        exact hcont (List.elem_iff.mpr hmem)
  · intro s
    rcases sanitizeFilename_cases s with h | ⟨l, hEq, hne, hl⟩
    · rw [h]
      show List.Chain' _ ['u', 'n', 'k', 'n', 'o', 'w', 'n']
      simp +decide [List.chain'_cons]
    · rw [hEq]
      show l.Chain' _
      rw [hl]
      refine List.Chain'.prefix ?_ (List.take_prefix _ _)
      exact chain'_stripUnderscoreEnds _ (fun a b hab h => hab ⟨h.2, h.1⟩) _
        (chain'_collapseUnderscores _)

/-- C9 witness: the filename equation at a concrete profile, and the
no-special-character property applied at a concrete sanitized character. -/
theorem generateFilename_spec_witness :
    generateFilename "GET /api/users" "abcdef123456" "markdown" =
      sanitizeFilename (stripHttpMethod "GET /api/users") ++ "_" ++
        (String.take "abcdef123456" 8) ++ ".md" ∧
    ('a' ∈ (sanitizeFilename "/api").toList ∧ 'a' ∉ fsSpecialChars) :=
  ⟨(generateFilename_spec.1 "GET /api/users" "abcdef123456").2.1,
   ⟨by decide, generateFilename_spec.2.2.2.1 "/api" 'a' (by decide)⟩⟩

/-- C5: starting from the empty store, any sequence of `record_alert`
calls (in particular inserting `maxRecords + k` distinct endpoints)
leaves at most `maxRecords` resident records; and whenever an insertion
of a new endpoint finds the store at or above `maxRecords`, exactly
`max 1 (maxRecords / 10)` records — about 10 percent, at least one — are
evicted before the insert, and every evicted record is no newer (by
`lastAlertTime`, i.e. eviction takes the oldest, ascending) than every
retained pre-existing record. -/
theorem recordAlert_eviction_bound :
    (∀ (maxR : Nat) (calls : List (String × Int)), 1 ≤ maxR →
      (calls.foldl (fun a c => recordAlert maxR c.2 a c.1) []).length ≤ maxR) ∧
    (∀ (maxR : Nat) (now : Int) (al : Alerts) (e : String),
      1 ≤ maxR → NodupKeys al → lookupAlert al e = none →
      maxR ≤ al.length →
      (recordAlert maxR now al e).length =
        al.length - Nat.max 1 (maxR / 10) + 1 ∧
      (∀ p ∈ al, p.1 ∉ keysOf (recordAlert maxR now al e) →
        ∀ q ∈ al, q.1 ∈ keysOf (recordAlert maxR now al e) →
          p.2.lastAlertTime ≤ q.2.lastAlertTime)) := by
  refine ⟨?_, ?_⟩
  · intro maxR calls hmax
    exact (foldl_recordAlert_invariant maxR hmax calls []
      (by simp [NodupKeys, keysOf]) (by simp)).2
  · intro maxR now al e hmax hnd hlook hge
    have hmem : e ∉ keysOf al := (lookupAlert_eq_none_iff al e).mp hlook
    have hmemev : e ∉ keysOf (evictIfNeeded maxR al) := fun h =>
      hmem ((evict_keys_sublist maxR al).subset h)
    have hres : recordAlert maxR now al e =
        evictIfNeeded maxR al ++ [(e, ⟨e, now, 1⟩)] := by
      unfold recordAlert
      rw [hlook]
      exact setAlert_of_not_mem _ _ _ hmemev
    have hkeysres : keysOf (recordAlert maxR now al e) =
        keysOf (evictIfNeeded maxR al) ++ [e] := by
      rw [hres]
      unfold keysOf
      rw [List.map_append]
      rfl
    have hpack := evict_package maxR al hnd hge hmax
    constructor
    · rw [hres, List.length_append, hpack.1]
      simp
    · intro p hp hpnot q hq hqmem
      rw [hkeysres] at hpnot hqmem
      have hpev : p.1 ∉ keysOf (evictIfNeeded maxR al) := fun h =>
        hpnot (List.mem_append.mpr (Or.inl h))
      have hqev : q.1 ∈ keysOf (evictIfNeeded maxR al) := by
        rcases List.mem_append.mp hqmem with h | h
        · exact h
        · simp only [List.mem_singleton] at h
          exact absurd (h ▸ List.mem_map_of_mem Prod.fst hq) hmem
      exact hpack.2 p hp hpev q hq hqev

/-- C5 witness: four distinct endpoints folded into a store of capacity 3
stay within the bound, and a fresh insert into a full capacity-3 store
evicts exactly `max 1 (3 / 10) = 1` record. -/
theorem recordAlert_eviction_bound_witness :
    (([("a", (0 : Int)), ("b", 1), ("c", 2), ("d", 3)].foldl
        (fun a c => recordAlert 3 c.2 a c.1) []).length ≤ 3) ∧
    (recordAlert 3 3
        [("a", AlertRecord.mk "a" 0 1), ("b", AlertRecord.mk "b" 1 1),
         ("c", AlertRecord.mk "c" 2 1)] "d").length =
      [("a", AlertRecord.mk "a" 0 1), ("b", AlertRecord.mk "b" 1 1),
       ("c", AlertRecord.mk "c" 2 1)].length - Nat.max 1 (3 / 10) + 1 :=
  ⟨recordAlert_eviction_bound.1 3 _ (by decide),
   (recordAlert_eviction_bound.2 3 3 _ "d" (by decide)
      (by unfold NodupKeys keysOf; decide) (by decide) (by decide)).1⟩

/-- C7 witness: the round trip applied to a concrete two-record store. -/
theorem save_load_round_trip_witness :
    (loadStore (saveAlerts
        [("/a", AlertRecord.mk "/a" 3 2), ("GET /b", AlertRecord.mk "GET /b" (-1) 5)])).alerts =
      [("/a", AlertRecord.mk "/a" 3 2), ("GET /b", AlertRecord.mk "GET /b" (-1) 5)] :=
  save_load_round_trip
    [("/a", AlertRecord.mk "/a" 3 2), ("GET /b", AlertRecord.mk "GET /b" (-1) 5)]
    (by unfold NodupKeys keysOf; decide) (by decide)
